import Mathlib

/-
Verification of the wondrlink query-understanding and context-assembly
pipeline.  The definitions below are a shallow embedding of the TypeScript
sources:

  * src/lib/llm/prompts.ts   — query classification, patient-context
    rendering, prompt assembly, urgency detection, disclaimer injection;
  * src/lib/llm/together.ts  — generation settings derivation and
    sentence-boundary repair;
  * src/app/api/chat/route.ts — two-strategy retrieval with rank fusion.

JavaScript strings are modelled as Lean `String` / `List Char`;
JavaScript `Map` objects as insertion-ordered association lists;
floating-point relevance ranks as rationals; the external full-text
search collaborator as an oracle function `String → Nat → List Chunk`.
`Array.prototype.sort` is a stable sort, which insertion sort models
exactly.  `toLowerCase`/`toUpperCase`/`trim` are modelled character-wise
(`jsToLower`, `jsToUpper`, `jsTrim`), faithful on the ASCII texts the
pipeline manipulates.
-/

namespace Wondrlink

/-! ### JavaScript string primitives -/

def jsToLower (s : String) : String := String.mk (s.data.map Char.toLower)

def jsToUpper (s : String) : String := String.mk (s.data.map Char.toUpper)

def jsTrim (s : String) : String :=
  String.mk (((s.data.dropWhile Char.isWhitespace).reverse.dropWhile Char.isWhitespace).reverse)

/-- JavaScript `String.prototype.includes` on character lists. -/
def containsSub : List Char → List Char → Bool
  | [], kw => kw.isEmpty
  | s@(_ :: rest), kw => kw.isPrefixOf s || containsSub rest kw

def strIncludes (s kw : String) : Bool := containsSub s.data kw.data

/-- Number of positions of `s` at which `pat` occurs (as a contiguous run). -/
def countOcc (pat : List Char) : List Char → Nat
  | [] => 0
  | s@(_ :: rest) => (if pat <+: s then 1 else 0) + countOcc pat rest

/-- JavaScript `Array.prototype.join` specialised to a separator. -/
def joinWith (sep : String) : List String → String
  | [] => ""
  | [p] => p
  | p :: q :: rest => p ++ sep ++ joinWith sep (q :: rest)

/-- JavaScript `String.prototype.lastIndexOf` for a single character
(-1 when absent). -/
def lastIndexOfC : List Char → Char → Int
  | [], _ => -1
  | a :: rest, c =>
    let r := lastIndexOfC rest c
    if 0 ≤ r then r + 1 else if a == c then 0 else -1

/-! ### prompts.ts — classifyQueryType -/

def treatmentPatterns : List String :=
  ["treatment", "therapy", "drug", "medication", "chemo", "chemotherapy",
   "radiation", "surgery", "regimen", "folfox", "folfiri", "capox",
   "bevacizumab", "cetuximab", "immunotherapy", "targeted therapy",
   "first line", "second line", "1st line", "2nd line", "adjuvant",
   "neoadjuvant", "maintenance", "what drugs", "which treatment"]

def sideEffectPatterns : List String :=
  ["side effect", "adverse", "symptom", "nausea", "fatigue", "tired",
   "pain", "hair loss", "diarrhea", "vomiting", "neuropathy", "numbness",
   "tingling", "cold sensitivity", "mouth sores", "appetite", "weight",
   "infection", "fever", "blood count", "neutropenia", "manage", "cope",
   "deal with", "help with"]

def prognosisPatterns : List String :=
  ["prognosis", "survival", "outcome", "chance", "cure", "remission",
   "recurrence", "come back", "spread", "metastasis", "metastatic",
   "life expectancy", "how long", "statistics", "odds", "likelihood"]

def diagnosisPatterns : List String :=
  ["diagnos", "test", "scan", "ct", "mri", "pet", "colonoscopy",
   "biopsy", "marker", "genetic", "mutation", "kras", "braf", "msi",
   "cea", "stage", "staging", "what does", "mean", "results"]

def screeningPatterns : List String :=
  ["screen", "prevention", "prevent", "risk", "family history",
   "hereditary", "lynch", "when should", "how often", "check"]

def classifyQueryType (query : String) : String :=
  let queryLower := jsToLower query
  if treatmentPatterns.any (fun kw => strIncludes queryLower kw) then "treatment"
  else if sideEffectPatterns.any (fun kw => strIncludes queryLower kw) then "side_effect"
  else if prognosisPatterns.any (fun kw => strIncludes queryLower kw) then "prognosis"
  else if diagnosisPatterns.any (fun kw => strIncludes queryLower kw) then "diagnosis"
  else if screeningPatterns.any (fun kw => strIncludes queryLower kw) then "screening"
  else "general"

/-! ### prompts.ts — PatientContext and formatPatientContext

TypeScript optional fields are `Option`s; `none` is an absent key
(`undefined`), `some v` a present key whose JavaScript truthiness is
judged on `v` (empty string, zero and empty arrays count via their own
guards, exactly as in the source). -/

structure PatientContext where
  cancerType : Option String := none
  cancerStage : Option String := none
  currentTreatments : Option (List String) := none
  medications : Option (List String) := none
  symptoms : Option (List String) := none
  biomarkers : Option (List (String × String)) := none
  diagnosisDate : Option String := none
  age : Option Nat := none
  gender : Option String := none

/-- JavaScript truthiness of an optional string field. -/
def truthyStr : Option String → Bool
  | some s => !(s == "")
  | none => false

/-- JavaScript truthiness of an optional number field. -/
def truthyNat : Option Nat → Bool
  | some n => !(n == 0)
  | none => false

/-- `Object.keys(patientContext).length` — the number of present keys. -/
def keysCount (p : PatientContext) : Nat :=
  (if p.cancerType.isSome then 1 else 0) + (if p.cancerStage.isSome then 1 else 0)
  + (if p.currentTreatments.isSome then 1 else 0) + (if p.medications.isSome then 1 else 0)
  + (if p.symptoms.isSome then 1 else 0) + (if p.biomarkers.isSome then 1 else 0)
  + (if p.diagnosisDate.isSome then 1 else 0) + (if p.age.isSome then 1 else 0)
  + (if p.gender.isSome then 1 else 0)

def formatPatientContext (profile : PatientContext) : String :=
  let parts : List String :=
    (if truthyStr profile.cancerType then ["• Cancer Type: " ++ profile.cancerType.getD ""] else [])
    ++ (if truthyStr profile.cancerStage then ["• Stage: " ++ profile.cancerStage.getD ""] else [])
    ++ (if truthyStr profile.diagnosisDate then ["• Diagnosis Date: " ++ profile.diagnosisDate.getD ""] else [])
    ++ (if truthyNat profile.age then ["• Age: " ++ toString (profile.age.getD 0)] else [])
    ++ (if truthyStr profile.gender then ["• Gender: " ++ profile.gender.getD ""] else [])
    ++ (match profile.currentTreatments with
        | some l => if 0 < l.length then ["• Current Treatments: " ++ joinWith ", " l] else []
        | none => [])
    ++ (match profile.medications with
        | some l => if 0 < l.length then ["• Medications: " ++ joinWith ", " l] else []
        | none => [])
    ++ (match profile.symptoms with
        | some l => if 0 < l.length then ["• Current Symptoms: " ++ joinWith ", " l] else []
        | none => [])
    ++ (match profile.biomarkers with
        | some l =>
          if 0 < l.length then
            ["• Biomarkers: " ++ joinWith ", " (l.map (fun kv => kv.1 ++ ": " ++ kv.2))]
          else []
        | none => [])
  if 0 < parts.length then joinWith "\n" parts else ""

/-! ### prompts.ts — assemblePrompt -/

def contextHeader : String := "=== CONTEXT FOR ANSWERING ==="

def patientPartPre : String := "\n📋 PATIENT PROFILE:\n"

def patientPartSuf : String :=
  "\n\nIMPORTANT: Tailor your response to this specific patient's situation, stage, and current treatments."

def patientPart (formattedContext : String) : String :=
  patientPartPre ++ formattedContext ++ patientPartSuf

def noSourcesPart : String :=
  "\n⚠️ NOTE: No directly relevant medical sources were found for this query.\nProvide general guidance based on established cancer care principles, and clearly indicate when you're speaking generally vs. from specific sources."

/-- The label `--- Source n ---` wrapped around the n-th retrieved
chunk. -/
def sourceLabel (n : Nat) : String := "--- Source " ++ toString n ++ " ---"

/-- One numbered per-chunk reference string
(`\n--- Source ${i + 1} ---\n${chunk.trim()}\n`). -/
def chunkPiece (n : Nat) (chunk : String) : String :=
  "\n" ++ sourceLabel n ++ "\n" ++ jsTrim chunk ++ "\n"

def numberChunks (i : Nat) : List String → List String
  | [] => []
  | chunk :: rest => chunkPiece (i + 1) chunk :: numberChunks (i + 1) rest

def chunkSourcesPre : String :=
  "\n📚 MEDICAL REFERENCE INFORMATION (from NCCN Guidelines and Clinical Sources):\n"

def chunkSourcesSuf : String :=
  "\n\nIMPORTANT: Base your answer on the above medical sources. Cite specific information when available."

def chunkSourcesPart (retrievedChunks : List String) : String :=
  chunkSourcesPre ++ joinWith "\n" (numberChunks 0 retrievedChunks) ++ chunkSourcesSuf

def historyPartPre : String := "\n💬 RECENT CONVERSATION:\n"

def historyPartSuf : String :=
  "\n\nUse this context to provide a coherent, connected response."

def historyPart (conversationHistory : String) : String :=
  historyPartPre ++ conversationHistory ++ historyPartSuf

def questionPartPre : String := "\n=== PATIENT'S QUESTION ===\n\""

def questionPartMid : String := "\"\n\nQuery Type Detected: "

def questionPart (userMessage queryType : String) : String :=
  questionPartPre ++ userMessage ++ questionPartMid ++ jsToUpper queryType

def generalFocus : String :=
  "\nFocus on: Providing comprehensive, accurate information that addresses the patient's underlying concern."

def queryFocusTable : List (String × String) :=
  [("treatment", "\nFocus on: Specific treatment regimens, drug names, treatment sequences, duration of therapy, and what to expect during treatment."),
   ("side_effect", "\nFocus on: Common and serious side effects, practical management strategies, when to call the doctor, and preventive measures."),
   ("prognosis", "\nFocus on: Stage-specific information, prognostic factors, survival statistics (with appropriate context), and factors that influence outcomes."),
   ("diagnosis", "\nFocus on: Explaining test results, staging criteria, what different findings mean, and next steps in the diagnostic workup."),
   ("screening", "\nFocus on: Screening recommendations by age and risk level, screening test options, and prevention strategies."),
   ("general", generalFocus)]

/-- `queryInstructions[queryType] || queryInstructions.general`. -/
def focusOf (queryType : String) : String :=
  (queryFocusTable.lookup queryType).getD generalFocus

def guidelinesPre : String := "\n=== RESPONSE GUIDELINES ===\n"

def guidelinesSuf : String :=
  "\n\nRemember to:\n1. Be specific - include actual names, numbers, and timeframes\n2. Be accurate - only state what's supported by the sources\n3. Be helpful - give actionable information\n4. Be caring - acknowledge the patient's situation with empathy"

def guidelinesPart (queryType : String) : String :=
  guidelinesPre ++ focusOf queryType ++ guidelinesSuf

/-- The patient-profile section: present only when the context object
exists, has at least one key, and renders to a non-empty block. -/
def patientBlockList (patientContext : Option PatientContext) : List String :=
  match patientContext with
  | some profile =>
    if 0 < keysCount profile then
      (if formatPatientContext profile == "" then []
       else [patientPart (formatPatientContext profile)])
    else []
  | none => []

/-- The conversation-history section: present only when the history
string and its trimmed form are truthy. -/
def historyBlockList (conversationHistory : String) : List String :=
  if conversationHistory == "" then []
  else if jsTrim conversationHistory == "" then []
  else [historyPart conversationHistory]

def assembleParts (userMessage : String) (retrievedChunks : List String)
    (patientContext : Option PatientContext) (conversationHistory : String)
    (queryType : String) : List String :=
  [contextHeader]
  ++ patientBlockList patientContext
  ++ [if 0 < retrievedChunks.length then chunkSourcesPart retrievedChunks else noSourcesPart]
  ++ historyBlockList conversationHistory
  ++ [questionPart userMessage queryType, guidelinesPart queryType]

def assemblePrompt (userMessage : String) (retrievedChunks : List String)
    (patientContext : Option PatientContext) (conversationHistory : String)
    (queryType : String) : String :=
  joinWith "\n" (assembleParts userMessage retrievedChunks patientContext conversationHistory queryType)

/-! ### prompts.ts — detectUrgency and addMedicalDisclaimer -/

def urgencyKeywords : List String :=
  ["emergency", "urgent", "severe pain", "can't breathe", "bleeding heavily",
   "fever over 101", "fever over 38", "high fever", "chest pain", "fainting",
   "unconscious", "seizure", "allergic reaction", "swelling throat",
   "difficulty breathing", "blood in stool", "can't keep anything down",
   "severe diarrhea", "confusion", "sudden weakness", "stroke"]

def detectUrgency (message : String) : Bool :=
  let messageLower := jsToLower message
  urgencyKeywords.any (fun kw => strIncludes messageLower kw)

def emergencyBanner : String :=
  "⚠️ **URGENT - SEEK IMMEDIATE CARE**\n\nThe symptoms you're describing may require immediate medical attention. Please:\n1. Contact your oncology team's emergency line immediately\n2. If you can't reach them, go to the emergency room\n3. Don't wait to see if symptoms improve"

def addMedicalDisclaimer (response : String) (isUrgent : Bool) : String :=
  if isUrgent then emergencyBanner ++ "\n\n---\n\n" ++ response
  else response

/-! ### together.ts — getResponseSettings -/

structure ResponseSettings where
  maxTokens : Nat
  systemMessage : String
  deriving DecidableEq

def baseInstructions : String :=
  "You are WondrLink, an expert cancer care guide powered by NCCN guidelines and clinical evidence. Your mission is to help patients understand their cancer journey with accurate, actionable information.\n\nCORE PRINCIPLES:\n1. ACCURACY FIRST: Only state facts that are supported by the provided medical sources\n2. BE SPECIFIC: Include actual drug names, dosages, regimen names, percentages, and timeframes when available\n3. CITE YOUR SOURCES: Reference the specific guidelines or studies when making claims\n4. PATIENT-CENTERED: Explain complex concepts in accessible language, but don't oversimplify to the point of losing important details\n5. ACTIONABLE: Give patients concrete information they can discuss with their healthcare team"

def llmGeneralGuidance : String :=
  "\nGENERAL GUIDANCE:\n- Provide comprehensive, well-organized information\n- Cover the most important aspects of the topic\n- Include practical next steps or questions to ask the doctor"

def llmGuidanceTable : List (String × String) :=
  [("treatment", "\nTREATMENT-SPECIFIC GUIDANCE:\n- Name specific chemotherapy regimens (e.g., FOLFOX, FOLFIRI, CAPOX)\n- Mention targeted therapies when relevant (e.g., bevacizumab, cetuximab)\n- Explain the treatment sequence (1st line, 2nd line, etc.)\n- Include information about treatment duration and cycles when available"),
   ("side_effect", "\nSIDE EFFECT-SPECIFIC GUIDANCE:\n- List specific side effects with their frequency (common, less common, rare)\n- Provide practical management tips\n- Mention which symptoms require immediate medical attention\n- Include information about preventive medications when relevant"),
   ("prognosis", "\nPROGNOSIS-SPECIFIC GUIDANCE:\n- Provide stage-specific survival statistics when available\n- Explain prognostic factors (biomarkers, tumor characteristics)\n- Be honest but hopeful - emphasize that statistics are averages\n- Mention factors that can improve outcomes"),
   ("diagnosis", "\nDIAGNOSIS-SPECIFIC GUIDANCE:\n- Explain what tests are used and why\n- Describe what results mean in practical terms\n- Mention the staging system and what each stage indicates\n- Include information about biomarker testing"),
   ("general", llmGeneralGuidance)]

def briefMessage (querySpecificInstructions : String) : String :=
  baseInstructions
  ++ "\n\nRESPONSE FORMAT (Brief):\n- Provide a concise 2-3 sentence answer\n- Focus on the single most important point\n- Include one specific detail or statistic\n"
  ++ querySpecificInstructions
  ++ "\n\nEnd with a brief recommendation to discuss with their healthcare team."

def normalMessage (querySpecificInstructions : String) : String :=
  baseInstructions
  ++ "\n\nRESPONSE FORMAT (Normal):\n- Provide a comprehensive 4-6 sentence answer\n- Cover 2-3 key points with specific details\n- Include relevant statistics, drug names, or timeframes\n- Use bullet points or short paragraphs for clarity\n"
  ++ querySpecificInstructions
  ++ "\n\nEnd with a recommendation to discuss specifics with their healthcare team."

def detailedMessage (querySpecificInstructions : String) : String :=
  baseInstructions
  ++ "\n\nRESPONSE FORMAT (Detailed):\n- Provide a thorough, well-structured response\n- Cover all relevant aspects of the topic\n- Include specific data: drug names, dosages, percentages, durations\n- Organize information with clear sections or bullet points\n- Explain the reasoning behind recommendations\n- Address common patient concerns or questions\n"
  ++ querySpecificInstructions
  ++ "\n\nConclude with specific questions the patient might want to ask their doctor."

def getResponseSettings (responseLength queryType : String) : ResponseSettings :=
  let querySpecificInstructions := (llmGuidanceTable.lookup queryType).getD llmGeneralGuidance
  if responseLength = "brief" then ⟨250, briefMessage querySpecificInstructions⟩
  else if responseLength = "normal" then ⟨500, normalMessage querySpecificInstructions⟩
  else if responseLength = "detailed" then ⟨800, detailedMessage querySpecificInstructions⟩
  else ⟨500, normalMessage querySpecificInstructions⟩

/-! ### together.ts — trimIncompleteSentence -/

/-- The regular expression test of the source (does the string end in
one of `.  !  ?  "`). -/
def endsWithTerminal (s : String) : Bool :=
  match s.data.getLast? with
  | some c => ['.', '!', '?', '"'].contains c
  | none => false

/-- `Math.max(lastIndexOf -, lastIndexOf !, lastIndexOf ?)`. -/
def lastPunctIndex (s : String) : Int :=
  max (lastIndexOfC s.data '.') (max (lastIndexOfC s.data '!') (lastIndexOfC s.data '?'))

def trimIncompleteSentence (response : String) : String :=
  if response == "" then response
  else
    let r := jsTrim response
    if endsWithTerminal r then r
    else
      let lastPunct := lastPunctIndex r
      if 0 < lastPunct then String.mk (r.data.take (lastPunct.toNat + 1)) else r

/-! ### route.ts — searchRelevantChunks -/

/-- One row of the `search_chunks` full-text-search collaborator. -/
structure Chunk where
  chunk_id : String
  content : String
  rank : ℚ

/-- `Map<string, {content, rank}>` with JavaScript insertion-order
semantics: `set` overwrites in place, otherwise appends. -/
abbrev ResultsMap := List (String × String × ℚ)

def mapHas (m : ResultsMap) (k : String) : Bool := m.any (fun e => e.1 == k)

def mapSet (m : ResultsMap) (k content : String) (rank : ℚ) : ResultsMap :=
  if mapHas m k then m.map (fun e => if e.1 == k then (k, content, rank) else e)
  else m ++ [(k, content, rank)]

def mapLookup (m : ResultsMap) (k : String) : Option (String × ℚ) :=
  (m.find? (fun e => e.1 == k)).map (fun e => e.2)

def queryTypeKeywords : List (String × String) :=
  [("treatment", "chemotherapy regimen FOLFOX FOLFIRI treatment protocol"),
   ("side_effect", "adverse effects toxicity side effects management symptoms"),
   ("prognosis", "survival outcome prognosis stage recurrence"),
   ("diagnosis", "staging diagnosis biomarker testing CEA"),
   ("screening", "screening colonoscopy prevention early detection")]

/-- Strategy-1 results inserted with a 1.5 boost, then strategy-2
results inserted only at identifiers not already present. -/
def fuseResults (directResults typeResults : List Chunk) : ResultsMap :=
  let m := directResults.foldl
    (fun m c => mapSet m c.chunk_id c.content (c.rank * 1.5)) []
  typeResults.foldl
    (fun m c => if mapHas m c.chunk_id then m else mapSet m c.chunk_id c.content c.rank) m

/-- The comparator `(a, b) => b[1].rank - a[1].rank`: descending rank. -/
def rankDescending (a b : String × String × ℚ) : Prop := b.2.2 ≤ a.2.2

instance : DecidableRel rankDescending :=
  fun a b => inferInstanceAs (Decidable (b.2.2 ≤ a.2.2))

instance : IsTotal (String × String × ℚ) rankDescending :=
  ⟨fun a b => le_total b.2.2 a.2.2⟩

instance : IsTrans (String × String × ℚ) rankDescending :=
  ⟨fun _ _ _ hab hbc => le_trans hbc hab⟩

/-- Sort by rank descending (stable, like `Array.prototype.sort`), take
the first `limit` entries, return their contents. -/
def sortByRankTake (m : ResultsMap) (limit : Nat) : List String :=
  ((List.insertionSort rankDescending m).take limit).map (fun e => e.2.1)

/-- The strategy-2 search: issued only when the query type has an entry
in the keyword table, with the expansion appended to the query. -/
def strategyBResults (search : String → Nat → List Chunk)
    (query queryType : String) (limit : Nat) : List Chunk :=
  match queryTypeKeywords.lookup queryType with
  | some additionalSearch => search (query ++ " " ++ additionalSearch) limit
  | none => []

def searchRelevantChunks (search : String → Nat → List Chunk)
    (query queryType : String) (limit : Nat) : List String :=
  sortByRankTake
    (fuseResults (search query limit) (strategyBResults search query queryType limit))
    limit

/-! ### Substring-occurrence machinery

`countOcc pat s` counts the positions of `s` at which `pat` occurs.  The
lemmas below let occurrence counts distribute over the concatenations that
build a prompt: an occurrence that crosses a concatenation boundary must
contain the characters adjacent to the boundary, so boundaries flanked by a
character outside `pat` (or by a concrete segment that matches no border of
`pat`) split the count additively. -/

theorem countOcc_cons (pat : List Char) (c : Char) (rest : List Char) :
    countOcc pat (c :: rest) = (if pat <+: c :: rest then 1 else 0) + countOcc pat rest := rfl

/-- No nonempty proper prefix of `pat` is a suffix of `a`: occurrences in
`a ++ b` cannot start inside `a` and leak into `b`. -/
def leftSafe (pat a : List Char) : Prop :=
  ∀ k, k < pat.length → 0 < k → ¬ (pat.take k <:+ a)

/-- No nonempty proper suffix of `pat` is a prefix of `b`: occurrences in
`a ++ b` cannot start inside `a` and leak into `b`. -/
def rightSafe (pat b : List Char) : Prop :=
  ∀ k, k < pat.length → 0 < k → ¬ (pat.drop k <+: b)

instance (pat a : List Char) : Decidable (leftSafe pat a) :=
  inferInstanceAs (Decidable (∀ k, k < pat.length → 0 < k → ¬ (pat.take k <:+ a)))

instance (pat b : List Char) : Decidable (rightSafe pat b) :=
  inferInstanceAs (Decidable (∀ k, k < pat.length → 0 < k → ¬ (pat.drop k <+: b)))

theorem prefix_of_append_left {pat a b : List Char}
    (h : pat <+: a ++ b) (hle : pat.length ≤ a.length) : pat <+: a := by
  rw [List.prefix_iff_eq_take] at h ⊢
  exact h.trans (List.take_append_of_le_length hle)

theorem suffix_of_append_right {l x t : List Char}
    (h : l <:+ x ++ t) (hl : l.length ≤ t.length) : l <:+ t := by
  rw [List.suffix_iff_eq_drop] at h
  rw [List.length_append] at h
  have hsplit : x.length + t.length - l.length = x.length + (t.length - l.length) := by omega
  rw [hsplit, List.drop_append] at h
  rw [h]
  exact List.drop_suffix _ _

theorem suffix_of_suffix_length_le {l₁ l₂ l₃ : List Char}
    (h₁ : l₁ <:+ l₃) (h₂ : l₂ <:+ l₃) (hl : l₁.length ≤ l₂.length) : l₁ <:+ l₂ := by
  rw [← List.reverse_prefix] at h₁ h₂ ⊢
  exact List.prefix_of_prefix_length_le h₁ h₂ (by simpa using hl)

theorem countOcc_append_of_leftSafe (pat a b : List Char) (h : leftSafe pat a) :
    countOcc pat (a ++ b) = countOcc pat a + countOcc pat b := by
  induction a with
  | nil => simp [countOcc]
  | cons c a ih =>
    have hsub : leftSafe pat a := fun k hk hk0 hsuf =>
      h k hk hk0 (hsuf.trans (List.suffix_cons c a))
    have heq : (pat <+: (c :: a) ++ b) ↔ (pat <+: c :: a) := by
      constructor
      · intro hp
        by_cases hl : pat.length ≤ (c :: a).length
        · exact prefix_of_append_left hp hl
        · exfalso
          push_neg at hl
          have hpre : (c :: a) <+: pat :=
            List.prefix_of_prefix_length_le (List.prefix_append _ _) hp hl.le
          have hsuf : pat.take (c :: a).length <:+ (c :: a) := by
            rw [List.prefix_iff_eq_take] at hpre
            rw [← hpre]
          exact h (c :: a).length hl (by simp) hsuf
      · intro hp; exact hp.trans (List.prefix_append _ _)
    show (if pat <+: (c :: a) ++ b then 1 else 0) + countOcc pat (a ++ b)
        = ((if pat <+: c :: a then 1 else 0) + countOcc pat a) + countOcc pat b
    rw [ih hsub]
    simp only [heq]
    omega

theorem countOcc_append_of_rightSafe (pat a b : List Char) (h : rightSafe pat b) :
    countOcc pat (a ++ b) = countOcc pat a + countOcc pat b := by
  induction a with
  | nil => simp [countOcc]
  | cons c a ih =>
    have heq : (pat <+: (c :: a) ++ b) ↔ (pat <+: c :: a) := by
      constructor
      · intro hp
        by_cases hl : pat.length ≤ (c :: a).length
        · exact prefix_of_append_left hp hl
        · exfalso
          push_neg at hl
          have hpre : (c :: a) <+: pat :=
            List.prefix_of_prefix_length_le (List.prefix_append _ _) hp hl.le
          obtain ⟨t, ht⟩ := hpre
          obtain ⟨u, hu⟩ := hp
          have htb : t <+: b := by
            refine ⟨u, ?_⟩
            have hcc : (c :: a) ++ (t ++ u) = (c :: a) ++ b := by
              rw [← List.append_assoc, ht, hu]
            exact List.append_cancel_left hcc
          have htd : t = pat.drop (c :: a).length := by
            rw [← ht, List.drop_left]
          exact h (c :: a).length hl (by simp) (htd ▸ htb)
      · intro hp; exact hp.trans (List.prefix_append _ _)
    show (if pat <+: (c :: a) ++ b then 1 else 0) + countOcc pat (a ++ b)
        = ((if pat <+: c :: a then 1 else 0) + countOcc pat a) + countOcc pat b
    rw [ih]
    simp only [heq]
    omega

theorem leftSafe_of_getLast (pat a : List Char) (c : Char)
    (hlast : a.getLast? = some c) (hc : c ∉ pat) : leftSafe pat a := by
  intro k hk hk0 hsuf
  have hne : pat.take k ≠ [] := by
    apply List.ne_nil_of_length_pos
    rw [List.length_take]
    exact lt_min hk0 (by omega)
  obtain ⟨u, hu⟩ := hsuf
  have h1 : a.getLast? = (pat.take k).getLast? := by
    rw [← hu, List.getLast?_append_of_ne_nil _ hne]
  rw [hlast, List.getLast?_eq_getLast _ hne] at h1
  have h2 : c ∈ pat.take k := by
    obtain rfl : c = (pat.take k).getLast hne := by injection h1
    exact List.getLast_mem hne
  exact hc (List.take_subset k pat h2)

theorem rightSafe_of_head (pat b : List Char) (c : Char)
    (hhead : b.head? = some c) (hc : c ∉ pat) : rightSafe pat b := by
  intro k hk hk0 hpre
  have hne : pat.drop k ≠ [] := by
    apply List.ne_nil_of_length_pos
    rw [List.length_drop]
    omega
  obtain ⟨u, hu⟩ := hpre
  cases hd : pat.drop k with
  | nil => exact hne hd
  | cons d tail =>
    have h1 : b.head? = some d := by
      rw [← hu, hd]
      rfl
    rw [hhead] at h1
    obtain rfl : c = d := by injection h1
    refine hc (List.drop_subset k pat ?_)
    rw [hd]
    exact List.mem_cons_self c tail

/-- Occurrence counts vanish when some character of the pattern is
missing from the text. -/
theorem countOcc_eq_zero_of_missing (pat s : List Char) (c : Char)
    (hc : c ∈ pat) (hs : c ∉ s) : countOcc pat s = 0 := by
  induction s with
  | nil => rfl
  | cons d s ih =>
    rw [countOcc_cons]
    have h1 : ¬ (pat <+: d :: s) := fun hp => hs (hp.subset hc)
    rw [if_neg h1, ih (fun hmem => hs (List.mem_cons_of_mem d hmem))]

theorem leftSafe_append_of_border (pat t : List Char)
    (h : ∀ k, k < pat.length → 0 < k → ¬ (pat.take k <:+ t) ∧ ¬ (t <:+ pat.take k))
    (x : List Char) : leftSafe pat (x ++ t) := by
  intro k hk hk0 hsuf
  by_cases hl : (pat.take k).length ≤ t.length
  · exact (h k hk hk0).1 (suffix_of_append_right hsuf hl)
  · exact (h k hk hk0).2
      (suffix_of_suffix_length_le (List.suffix_append x t) hsuf (by omega))

theorem rightSafe_append_of_border (pat t : List Char)
    (h : ∀ k, k < pat.length → 0 < k → ¬ (pat.drop k <+: t) ∧ ¬ (t <+: pat.drop k))
    (x : List Char) : rightSafe pat (t ++ x) := by
  intro k hk hk0 hpre
  by_cases hl : (pat.drop k).length ≤ t.length
  · exact (h k hk hk0).1 (prefix_of_append_left hpre hl)
  · exact (h k hk hk0).2
      (List.prefix_of_prefix_length_le (List.prefix_append t x) hpre (by omega))

theorem leftSafe_newline (pat : List Char) (hnl : '\n' ∉ pat) : leftSafe pat ['\n'] := by
  intro k hk hk0 hsuf
  obtain ⟨u, hu⟩ := hsuf
  cases u with
  | nil =>
    simp at hu
    exact hnl (List.take_subset k pat (hu ▸ List.mem_singleton_self '\n'))
  | cons d u' =>
    have hpos : 0 < (pat.take k).length := by
      rw [List.length_take]
      exact lt_min hk0 (by omega)
    have hlen := congrArg List.length hu
    rw [List.length_append] at hlen
    simp only [List.length_cons, List.length_nil] at hlen
    omega

theorem countOcc_newline_singleton (pat : List Char) (hpat : pat ≠ [])
    (hnl : '\n' ∉ pat) : countOcc pat ['\n'] = 0 := by
  obtain ⟨c, rest, rfl⟩ := List.exists_cons_of_ne_nil hpat
  rcases Decidable.em (c = '\n') with rfl | hne
  · exact absurd (List.mem_cons_self _ _) hnl
  · exact countOcc_eq_zero_of_missing _ _ c (List.mem_cons_self _ _) (by simp [hne])

theorem countOcc_joinWith (pat : List Char) (hpat : pat ≠ []) (hnl : '\n' ∉ pat)
    (parts : List String) :
    countOcc pat (joinWith "\n" parts).data
      = (parts.map (fun p => countOcc pat p.data)).sum := by
  induction parts with
  | nil => rfl
  | cons p rest ih =>
    cases rest with
    | nil => simp [joinWith]
    | cons q rest' =>
      have hdata : (joinWith "\n" (p :: q :: rest')).data
          = p.data ++ ('\n' :: (joinWith "\n" (q :: rest')).data) := by
        show (p ++ "\n" ++ joinWith "\n" (q :: rest')).data = _
        rw [String.data_append, String.data_append, List.append_assoc]
        rfl
      rw [hdata,
        countOcc_append_of_rightSafe pat _ _
          (rightSafe_of_head pat ('\n' :: (joinWith "\n" (q :: rest')).data) '\n' rfl hnl)]
      have hsplit : ('\n' :: (joinWith "\n" (q :: rest')).data)
          = ['\n'] ++ (joinWith "\n" (q :: rest')).data := rfl
      rw [hsplit, countOcc_append_of_leftSafe pat _ _ (leftSafe_newline pat hnl),
        countOcc_newline_singleton pat hpat hnl, ih]
      simp

/-- Every character produced by `Nat.toDigitsCore` over base 10 is a
decimal digit (given that the seed list is). -/
theorem toDigitsCore_all_digits :
    ∀ (fuel n : Nat) (ds : List Char), (∀ c ∈ ds, c.isDigit = true) →
      ∀ c ∈ Nat.toDigitsCore 10 fuel n ds, c.isDigit = true := by
  intro fuel
  induction fuel with
  | zero => intro n ds hds; exact hds
  | succ fuel ih =>
    intro n ds hds c hc
    have hnext : ∀ e ∈ (n % 10).digitChar :: ds, e.isDigit = true := by
      intro e he
      rcases List.mem_cons.mp he with rfl | hmem
      · have hlt : n % 10 < 10 := Nat.mod_lt n (by omega)
        revert hlt
        have : ∀ m, m < 10 → (Nat.digitChar m).isDigit = true := by decide
        exact this (n % 10)
      · exact hds e hmem
    rw [Nat.toDigitsCore] at hc
    by_cases hz : n / 10 = 0
    · rw [if_pos hz] at hc
      exact hnext c hc
    · rw [if_neg hz] at hc
      exact ih (n / 10) ((n % 10).digitChar :: ds) hnext c hc

/-- The decimal rendering of a natural number consists of digit
characters only. -/
theorem toString_nat_all_digits (n : Nat) :
    ∀ c ∈ (toString n).data, c.isDigit = true := by
  have : (toString n).data = Nat.toDigitsCore 10 (n + 1) n [] := rfl
  rw [this]
  exact toDigitsCore_all_digits (n + 1) n [] (by intro c hc; simp at hc)

/-! ### Association-list lemmas for the fusion map -/

theorem beq_symm_false {a b : String} (h : (a == b) = false) : (b == a) = false := by
  rw [beq_eq_false_iff_ne] at h ⊢
  exact fun hh => h hh.symm

theorem find?_map_replace (m : ResultsMap) (k content : String) (rank : ℚ)
    (h : mapHas m k = true) :
    (m.map (fun e => if e.1 == k then (k, content, rank) else e)).find? (fun e => e.1 == k)
      = some (k, content, rank) := by
  induction m with
  | nil => simp [mapHas] at h
  | cons x m ih =>
    by_cases hx : (x.1 == k) = true
    · simp [List.find?, hx]
    · have hx' : (x.1 == k) = false := by
        cases hb : (x.1 == k) with
        | true => exact absurd hb hx
        | false => rfl
      simp only [List.map_cons, List.find?, hx', if_false, Bool.false_eq_true]
      exact ih (by simpa [mapHas, hx'] using h)

theorem find?_map_replace_ne (m : ResultsMap) (k content : String) (rank : ℚ)
    (id : String) (hne : (k == id) = false) :
    (m.map (fun e => if e.1 == k then (k, content, rank) else e)).find? (fun e => e.1 == id)
      = m.find? (fun e => e.1 == id) := by
  induction m with
  | nil => rfl
  | cons x m ih =>
    by_cases hx : (x.1 == k) = true
    · have hxk : x.1 = k := beq_iff_eq.mp hx
      have hxid : (x.1 == id) = false := by rw [hxk]; exact hne
      simp only [List.map_cons, List.find?, hx, if_true, hne, hxid, Bool.false_eq_true]
      exact ih
    · have hx' : (x.1 == k) = false := by
        cases hb : (x.1 == k) with
        | true => exact absurd hb hx
        | false => rfl
      simp only [List.map_cons, List.find?, hx', if_false, Bool.false_eq_true]
      cases hxi : (x.1 == id) with
      | true => rfl
      | false => exact ih

theorem mapLookup_mapSet_same (m : ResultsMap) (k content : String) (rank : ℚ) :
    mapLookup (mapSet m k content rank) k = some (content, rank) := by
  unfold mapSet
  by_cases h : mapHas m k = true
  · rw [if_pos h]
    unfold mapLookup
    rw [find?_map_replace m k content rank h]
    rfl
  · rw [if_neg h]
    unfold mapLookup
    rw [List.find?_append]
    have hnone : m.find? (fun e => e.1 == k) = none := by
      rw [List.find?_eq_none]
      intro x hx hbeq
      exact h (List.any_eq_true.mpr ⟨x, hx, hbeq⟩)
    rw [hnone]
    simp [List.find?]

theorem mapLookup_mapSet_other (m : ResultsMap) (k content : String) (rank : ℚ)
    (id : String) (hne : (id == k) = false) :
    mapLookup (mapSet m k content rank) id = mapLookup m id := by
  have hne' : (k == id) = false := beq_symm_false hne
  unfold mapSet
  by_cases h : mapHas m k = true
  · rw [if_pos h]
    unfold mapLookup
    rw [find?_map_replace_ne m k content rank id hne']
  · rw [if_neg h]
    unfold mapLookup
    rw [List.find?_append]
    cases hf : m.find? (fun e => e.1 == id) with
    | some v => simp [hf]
    | none => simp [hf, List.find?, hne']

theorem mapHas_iff_lookup (m : ResultsMap) (k : String) :
    mapHas m k = true ↔ (mapLookup m k).isSome = true := by
  unfold mapHas mapLookup
  induction m with
  | nil => simp [List.find?]
  | cons x m ih =>
    simp only [List.any_cons, List.find?]
    cases hx : (x.1 == k) with
    | true => simp
    | false =>
      simp only [Bool.false_or]
      exact ih

/-- The chunk with a given identifier that survives the strategy-A pass:
the last one in the list (later `Map.set` calls overwrite earlier ones). -/
def lastWithId (results : List Chunk) (id : String) : Option Chunk :=
  (results.filter (fun c => c.chunk_id == id)).getLast?

/-- The chunk with a given identifier that survives the strategy-B pass:
the first one in the list (later ones skipped as already present). -/
def firstWithId (results : List Chunk) (id : String) : Option Chunk :=
  (results.filter (fun c => c.chunk_id == id)).head?

theorem lastWithId_cons (c : Chunk) (A : List Chunk) (id : String) :
    lastWithId (c :: A) id
      = match lastWithId A id with
        | some c' => some c'
        | none => if c.chunk_id == id then some c else none := by
  unfold lastWithId
  rw [List.filter_cons]
  cases hA : (A.filter (fun c => c.chunk_id == id)).getLast? with
  | some c' =>
    have hAne : A.filter (fun c => c.chunk_id == id) ≠ [] := by
      intro hnil
      rw [hnil] at hA
      exact absurd hA (by simp)
    by_cases hc : (c.chunk_id == id) = true
    · rw [if_pos hc]
      show ([c] ++ A.filter (fun c => c.chunk_id == id)).getLast? = _
      rw [List.getLast?_append_of_ne_nil _ hAne, hA]
    · rw [if_neg hc, hA]
  | none =>
    have hAnil : A.filter (fun c => c.chunk_id == id) = [] :=
      List.getLast?_eq_none_iff.mp hA
    rw [hAnil]
    by_cases hc : (c.chunk_id == id) = true
    · rw [if_pos hc, if_pos hc]
      rfl
    · rw [if_neg hc, if_neg hc]
      rfl

theorem firstWithId_cons (c : Chunk) (A : List Chunk) (id : String) :
    firstWithId (c :: A) id
      = if c.chunk_id == id then some c else firstWithId A id := by
  unfold firstWithId
  rw [List.filter_cons]
  by_cases hc : (c.chunk_id == id) = true
  · rw [if_pos hc, if_pos hc]
    rfl
  · rw [if_neg hc, if_neg hc]

theorem strategyA_fold_lookup (A : List Chunk) :
    ∀ (m : ResultsMap) (id : String),
      mapLookup (A.foldl (fun m c => mapSet m c.chunk_id c.content (c.rank * 1.5)) m) id
        = match lastWithId A id with
          | some c => some (c.content, c.rank * 1.5)
          | none => mapLookup m id := by
  induction A with
  | nil => intro m id; rfl
  | cons c A ih =>
    intro m id
    rw [List.foldl_cons, ih, lastWithId_cons]
    cases hA : lastWithId A id with
    | some c' => rfl
    | none =>
      by_cases hc : (c.chunk_id == id) = true
      · rw [if_pos hc]
        have hkid : c.chunk_id = id := beq_iff_eq.mp hc
        rw [← hkid]
        exact mapLookup_mapSet_same m c.chunk_id c.content (c.rank * 1.5)
      · rw [if_neg hc]
        have hc' : (c.chunk_id == id) = false := by
          cases hb : (c.chunk_id == id) with
          | true => exact absurd hb hc
          | false => rfl
        exact mapLookup_mapSet_other m c.chunk_id c.content (c.rank * 1.5) id
          (beq_symm_false hc')

theorem strategyB_fold_lookup (B : List Chunk) :
    ∀ (m : ResultsMap) (id : String),
      mapLookup (B.foldl
          (fun m c => if mapHas m c.chunk_id then m
                      else mapSet m c.chunk_id c.content c.rank) m) id
        = match mapLookup m id with
          | some v => some v
          | none => (firstWithId B id).map (fun c => (c.content, c.rank)) := by
  induction B with
  | nil =>
    intro m id
    rw [List.foldl_nil]
    cases h : mapLookup m id with
    | some v => rfl
    | none => rfl
  | cons c B ih =>
    intro m id
    rw [List.foldl_cons, ih, firstWithId_cons]
    by_cases hhas : mapHas m c.chunk_id = true
    · rw [if_pos hhas]
      cases hm : mapLookup m id with
      | some v => rfl
      | none =>
        by_cases hc : (c.chunk_id == id) = true
        · exfalso
          have hkid : c.chunk_id = id := beq_iff_eq.mp hc
          rw [hkid, mapHas_iff_lookup, hm] at hhas
          exact absurd hhas (by simp)
        · rw [if_neg hc]
    · rw [if_neg hhas]
      by_cases hc : (c.chunk_id == id) = true
      · have hkid : c.chunk_id = id := beq_iff_eq.mp hc
        have hmnone : mapLookup m id = none := by
          cases hl : mapLookup m id with
          | none => rfl
          | some v =>
            exfalso
            apply hhas
            rw [mapHas_iff_lookup, hkid, hl]
            rfl
        rw [if_pos hc, hmnone, ← hkid, mapLookup_mapSet_same]
        rfl
      · have hc' : (c.chunk_id == id) = false := by
          cases hb : (c.chunk_id == id) with
          | true => exact absurd hb hc
          | false => rfl
        rw [if_neg hc,
          mapLookup_mapSet_other m c.chunk_id c.content c.rank id (beq_symm_false hc')]

/-! ### Claim theorems -/

set_option maxRecDepth 4096 in
/-- C5: for every answer string, finalizing with `isUrgent = true` returns
the fixed emergency banner (whose text contains the three numbered action
items), then the separator `"\n\n---\n\n"`, then the original answer
unchanged as a suffix; finalizing with `isUrgent = false` returns exactly
the original answer. -/
theorem claim5_finalize (answer : String) :
    addMedicalDisclaimer answer true = emergencyBanner ++ "\n\n---\n\n" ++ answer
    ∧ addMedicalDisclaimer answer false = answer
    ∧ "1. Contact your oncology team's emergency line immediately".data <:+: emergencyBanner.data
    ∧ "2. If you can't reach them, go to the emergency room".data <:+: emergencyBanner.data
    ∧ "3. Don't wait to see if symptoms improve".data <:+: emergencyBanner.data :=
  ⟨rfl, rfl, by decide, by decide, by decide⟩

/-- A `PatientContext` value all of whose nine fields are present but
JavaScript-falsy: empty strings, empty lists, empty biomarker record,
age 0. -/
def allFalsyContext : PatientContext :=
  { cancerType := some "", cancerStage := some "", currentTreatments := some [],
    medications := some [], symptoms := some [], biomarkers := some [],
    diagnosisDate := some "", age := some 0, gender := some "" }

/-- C10: assembling a prompt with a `PatientContext` whose every field is
falsy yields exactly the same prompt as assembling with a null
`PatientContext`; the patient-profile block is omitted in both cases
because field population is judged by truthiness. -/
theorem claim10_falsy_context (question : String) (chunks : List String)
    (history queryType : String) :
    assemblePrompt question chunks (some allFalsyContext) history queryType
      = assemblePrompt question chunks none history queryType := rfl

/-- A search oracle that returns nothing for the plain query but one
chunk for the screening-expanded query. -/
def screeningOracle : String → Nat → List Chunk := fun q _ =>
  if q = "colon cancer screening colonoscopy prevention early detection" then
    [{ chunk_id := "b1", content := "expanded-only chunk", rank := 1 }]
  else []

/-- C1 counterexample: for queryType `screening` the keyword-expansion
search (step 2) is NOT skipped: with a search oracle for which strategy A
returns nothing, retrieval still returns a chunk surfaced only by the
expanded strategy-B query, so the result is not strategy-A results alone. -/
theorem claim1_counterexample :
    searchRelevantChunks screeningOracle "colon cancer" "screening" 8
        = ["expanded-only chunk"]
    ∧ screeningOracle "colon cancer" 8 = [] :=
  ⟨rfl, rfl⟩

/-- C1 amended: only query types with no entry in the keyword table skip
the second search — `general` (and any unknown type) has no entry and
returns strategy-A results alone, while `screening` has the table entry
`"screening colonoscopy prevention early detection"` and issues the second
search with that expansion appended to the query. -/
theorem claim1_amended (search : String → Nat → List Chunk) (query : String) (limit : Nat) :
    searchRelevantChunks search query "general" limit
        = sortByRankTake (fuseResults (search query limit) []) limit
    ∧ strategyBResults search query "general" limit = []
    ∧ (∀ queryType, queryTypeKeywords.lookup queryType = none →
        searchRelevantChunks search query queryType limit
          = sortByRankTake (fuseResults (search query limit) []) limit)
    ∧ strategyBResults search query "screening" limit
        = search (query ++ " " ++ "screening colonoscopy prevention early detection") limit
    ∧ queryTypeKeywords.lookup "general" = none := by
  refine ⟨rfl, rfl, ?_, rfl, rfl⟩
  intro queryType hnone
  unfold searchRelevantChunks strategyBResults
  rw [hnone]

/-- C1 amended witness at a concrete unknown query type. -/
theorem claim1_amended_witness :
    searchRelevantChunks screeningOracle "colon cancer" "chitchat" 8
      = sortByRankTake (fuseResults (screeningOracle "colon cancer" 8) []) 8 :=
  (claim1_amended screeningOracle "colon cancer" 8).2.2.1 "chitchat" rfl

/-- C2: fusion inserts every strategy-A result with its rank multiplied by
1.5 (for each identifier the surviving entry is the last strategy-A chunk
with that identifier, boosted), inserts a strategy-B result with rank
unmodified only when no strategy-A result has that identifier (the first
such B chunk), and never lets a strategy-B result overwrite a strategy-A
entry; in particular for duplicate identifier "x" with A-rank 2 and
B-rank 10 the fused rank is 3. -/
theorem claim2_fusion (A B : List Chunk) :
    (∀ id c, lastWithId A id = some c →
        mapLookup (fuseResults A B) id = some (c.content, c.rank * 1.5))
    ∧ (∀ id, lastWithId A id = none →
        mapLookup (fuseResults A B) id
          = (firstWithId B id).map (fun c => (c.content, c.rank)))
    ∧ mapLookup (fuseResults [⟨"x", "contentA", 2⟩] [⟨"x", "contentB", 10⟩]) "x"
        = some ("contentA", 3)
    ∧ fuseResults [] [⟨"y", "contentY", 5⟩] = [("y", "contentY", 5)] := by
  refine ⟨?_, ?_, ?_, rfl⟩
  · intro id c hlast
    unfold fuseResults
    rw [strategyB_fold_lookup, strategyA_fold_lookup, hlast]
  · intro id hlast
    unfold fuseResults
    rw [strategyB_fold_lookup, strategyA_fold_lookup, hlast]
    show (match mapLookup [] id with
          | some v => some v
          | none => (firstWithId B id).map (fun (c : Chunk) => (c.content, c.rank))) = _
    rfl
  · show mapLookup (fuseResults [⟨"x", "contentA", 2⟩] [⟨"x", "contentB", 10⟩]) "x"
        = some ("contentA", 3)
    unfold fuseResults
    rw [strategyB_fold_lookup, strategyA_fold_lookup]
    norm_num [lastWithId, List.filter, mapLookup, List.find?]

/-- C2 witness: the general fusion law applied at concrete inputs — the
duplicate identifier keeps the boosted strategy-A rank, and an identifier
present only in strategy B enters with its rank unmodified. -/
theorem claim2_fusion_witness :
    mapLookup (fuseResults [⟨"x", "contentA", 2⟩] [⟨"x", "contentB", 10⟩, ⟨"y", "contentY", 5⟩]) "y"
      = some ("contentY", 5) :=
  (claim2_fusion [⟨"x", "contentA", 2⟩] [⟨"x", "contentB", 10⟩, ⟨"y", "contentY", 5⟩]).2.1
    "y" rfl


/-- C6: unknown `responseLength` values fall back to the `normal` length
settings and unknown `queryType` values fall back to the `general`
guidance, never failing; known lengths map to maxTokens 250/500/800. -/
theorem claim6_settings_fallback (responseLength queryType : String) :
    (responseLength ∉ (["brief", "normal", "detailed"] : List String) →
        getResponseSettings responseLength queryType
          = getResponseSettings "normal" queryType)
    ∧ (queryType ∉ (["treatment", "side_effect", "prognosis", "diagnosis", "general"] : List String) →
        getResponseSettings responseLength queryType
          = getResponseSettings responseLength "general")
    ∧ (getResponseSettings "brief" queryType).maxTokens = 250
    ∧ (getResponseSettings "normal" queryType).maxTokens = 500
    ∧ (getResponseSettings "detailed" queryType).maxTokens = 800 := by
  refine ⟨?_, ?_, rfl, rfl, rfl⟩
  · intro h
    simp only [List.mem_cons, List.not_mem_nil, or_false, not_or] at h
    obtain ⟨h1, h2, h3⟩ := h
    unfold getResponseSettings
    rw [if_neg h1, if_neg h2, if_neg h3]
    rfl
  · intro h
    simp only [List.mem_cons, List.not_mem_nil, or_false, not_or] at h
    obtain ⟨h1, h2, h3, h4, h5⟩ := h
    have hnone : llmGuidanceTable.lookup queryType = none := by
      simp [llmGuidanceTable, List.lookup, beq_eq_false_iff_ne.mpr h1,
        beq_eq_false_iff_ne.mpr h2, beq_eq_false_iff_ne.mpr h3,
        beq_eq_false_iff_ne.mpr h4, beq_eq_false_iff_ne.mpr h5]
    unfold getResponseSettings
    rw [hnone]
    rfl

/-- C6 witness: the fallback law applied at the unknown pair
(`"huge"`, `"weird"`). -/
theorem claim6_witness :
    getResponseSettings "huge" "weird" = getResponseSettings "normal" "weird"
    ∧ getResponseSettings "huge" "weird" = getResponseSettings "huge" "general" :=
  ⟨(claim6_settings_fallback "huge" "weird").1 (by decide),
   (claim6_settings_fallback "huge" "weird").2.1 (by decide)⟩

/-- C3: classification lower-cases the input and returns the first
matching keyword set in the fixed priority order treatment > side_effect >
prognosis > diagnosis > screening, returning `general` when no set
matches; the result is always one of the six categories, for every input
string including the empty string. -/
theorem claim3_classify_priority (query : String) :
    (treatmentPatterns.any (fun kw => strIncludes (jsToLower query) kw) = true →
        classifyQueryType query = "treatment")
    ∧ (treatmentPatterns.any (fun kw => strIncludes (jsToLower query) kw) = false →
       sideEffectPatterns.any (fun kw => strIncludes (jsToLower query) kw) = true →
        classifyQueryType query = "side_effect")
    ∧ (treatmentPatterns.any (fun kw => strIncludes (jsToLower query) kw) = false →
       sideEffectPatterns.any (fun kw => strIncludes (jsToLower query) kw) = false →
       prognosisPatterns.any (fun kw => strIncludes (jsToLower query) kw) = true →
        classifyQueryType query = "prognosis")
    ∧ (treatmentPatterns.any (fun kw => strIncludes (jsToLower query) kw) = false →
       sideEffectPatterns.any (fun kw => strIncludes (jsToLower query) kw) = false →
       prognosisPatterns.any (fun kw => strIncludes (jsToLower query) kw) = false →
       diagnosisPatterns.any (fun kw => strIncludes (jsToLower query) kw) = true →
        classifyQueryType query = "diagnosis")
    ∧ (treatmentPatterns.any (fun kw => strIncludes (jsToLower query) kw) = false →
       sideEffectPatterns.any (fun kw => strIncludes (jsToLower query) kw) = false →
       prognosisPatterns.any (fun kw => strIncludes (jsToLower query) kw) = false →
       diagnosisPatterns.any (fun kw => strIncludes (jsToLower query) kw) = false →
       screeningPatterns.any (fun kw => strIncludes (jsToLower query) kw) = true →
        classifyQueryType query = "screening")
    ∧ (treatmentPatterns.any (fun kw => strIncludes (jsToLower query) kw) = false →
       sideEffectPatterns.any (fun kw => strIncludes (jsToLower query) kw) = false →
       prognosisPatterns.any (fun kw => strIncludes (jsToLower query) kw) = false →
       diagnosisPatterns.any (fun kw => strIncludes (jsToLower query) kw) = false →
       screeningPatterns.any (fun kw => strIncludes (jsToLower query) kw) = false →
        classifyQueryType query = "general")
    ∧ classifyQueryType query
        ∈ (["treatment", "side_effect", "prognosis", "diagnosis", "screening", "general"] : List String) := by
  refine ⟨?_, ?_, ?_, ?_, ?_, ?_, ?_⟩
  · intro h1
    simp [classifyQueryType, h1]
  · intro h1 h2
    simp [classifyQueryType, h1, h2]
  · intro h1 h2 h3
    simp [classifyQueryType, h1, h2, h3]
  · intro h1 h2 h3 h4
    simp [classifyQueryType, h1, h2, h3, h4]
  · intro h1 h2 h3 h4 h5
    simp [classifyQueryType, h1, h2, h3, h4, h5]
  · intro h1 h2 h3 h4 h5
    simp [classifyQueryType, h1, h2, h3, h4, h5]
  · simp only [classifyQueryType]
    split_ifs <;> simp

/-- C3 witness: the priority law applied at concrete queries — a query
with both a prognosis and a treatment keyword classifies as treatment, a
pure side-effect query as side_effect, and the empty string as general. -/
theorem claim3_witness :
    classifyQueryType "prognosis of this treatment" = "treatment"
    ∧ classifyQueryType "how to manage nausea" = "side_effect"
    ∧ classifyQueryType "" = "general" :=
  ⟨(claim3_classify_priority "prognosis of this treatment").1 (by decide),
   (claim3_classify_priority "how to manage nausea").2.1 (by decide) (by decide),
   (claim3_classify_priority "").2.2.2.2.2.1 (by decide) (by decide) (by decide)
     (by decide) (by decide)⟩

/-- C4 counterexample: the claim says a string already ending in one of
`. ! ? "` is returned unmodified, but the source trims whitespace first:
`" Hello."` ends in `.` yet is returned as `"Hello."`, not unmodified. -/
theorem claim4_counterexample :
    (" Hello." : String).data.getLast? = some '.'
    ∧ trimIncompleteSentence " Hello." = "Hello."
    ∧ trimIncompleteSentence " Hello." ≠ " Hello." :=
  ⟨rfl, rfl, by decide⟩

set_option maxRecDepth 8192 in
/-- C4 amended: the rules act on the whitespace-trimmed input — if the
trimmed string ends in `. ! ? "` the trimmed string is returned; otherwise
if the rightmost `. ! ?` in the trimmed string sits at a position greater
than 0 the trimmed string is truncated immediately after it; otherwise the
trimmed string is returned; the claim's two examples hold as stated. -/
theorem claim4_amended (s : String) :
    (endsWithTerminal (jsTrim s) = true → trimIncompleteSentence s = jsTrim s)
    ∧ (endsWithTerminal (jsTrim s) = false → 0 < lastPunctIndex (jsTrim s) →
        trimIncompleteSentence s
          = String.mk ((jsTrim s).data.take ((lastPunctIndex (jsTrim s)).toNat + 1)))
    ∧ (endsWithTerminal (jsTrim s) = false → lastPunctIndex (jsTrim s) ≤ 0 →
        trimIncompleteSentence s = jsTrim s)
    ∧ trimIncompleteSentence "The treatment is effective" = "The treatment is effective"
    ∧ trimIncompleteSentence "First point. Second point that got cut" = "First point." := by
  by_cases hs : s = ""
  · subst hs
    refine ⟨?_, ?_, ?_, rfl, rfl⟩
    · intro h
      exact absurd h (by decide)
    · intro _ h2
      exact absurd h2 (by decide)
    · intro _ _
      rfl
  · have hbeq : (s == "") = false := beq_eq_false_iff_ne.mpr hs
    refine ⟨?_, ?_, ?_, rfl, rfl⟩
    · intro h
      simp [trimIncompleteSentence, hbeq, h]
    · intro h h2
      simp [trimIncompleteSentence, hbeq, h, h2]
    · intro h h2
      have h3 : ¬ 0 < lastPunctIndex (jsTrim s) := not_lt.mpr h2
      simp [trimIncompleteSentence, hbeq, h, h3]

/-- C4 amended witness: truncation after the rightmost punctuation of the
trimmed input, at a concrete string. -/
theorem claim4_amended_witness :
    trimIncompleteSentence "Hello! wor" = "Hello!" := by
  rw [(claim4_amended "Hello! wor").2.1 (by decide) (by decide)]
  rfl

/-- C9: for every input whose whitespace-trimmed form is non-empty,
sentence repair returns a non-empty prefix of the trimmed input — it never
returns the empty string for such inputs. -/
theorem claim9_trim_nonempty_prefix (s : String) (h : jsTrim s ≠ "") :
    trimIncompleteSentence s ≠ ""
    ∧ (trimIncompleteSentence s).data <+: (jsTrim s).data := by
  have hs : s ≠ "" := by
    intro hse
    exact h (by rw [hse]; rfl)
  have hbeq : (s == "") = false := beq_eq_false_iff_ne.mpr hs
  have hdne : (jsTrim s).data ≠ [] := by
    intro hnil
    exact h (String.ext (hnil.trans rfl))
  unfold trimIncompleteSentence
  simp only [hbeq, Bool.false_eq_true, if_false]
  by_cases ht : endsWithTerminal (jsTrim s) = true
  · simp only [ht, if_true]
    exact ⟨h, List.prefix_rfl⟩
  · have ht' : endsWithTerminal (jsTrim s) = false := eq_false_of_ne_true ht
    simp only [ht', Bool.false_eq_true, if_false]
    by_cases hp : 0 < lastPunctIndex (jsTrim s)
    · simp only [if_pos hp]
      constructor
      · intro heq
        have hdata : (jsTrim s).data.take ((lastPunctIndex (jsTrim s)).toNat + 1) = [] :=
          congrArg String.data heq
        rcases List.take_eq_nil_iff.mp hdata with h0 | h0
        · omega
        · exact hdne h0
      · exact List.take_prefix _ _
    · simp only [if_neg hp]
      exact ⟨h, List.prefix_rfl⟩

/-- C9 witness: a string with surrounding whitespace and no terminal
punctuation yields a non-empty prefix of its trimmed form. -/
theorem claim9_witness :
    trimIncompleteSentence "  ok then " ≠ ""
    ∧ (trimIncompleteSentence "  ok then ").data <+: (jsTrim "  ok then ").data :=
  claim9_trim_nonempty_prefix "  ok then " (by decide)

/-- C7: retrieval returns at most `limit` chunk contents, and the output
is exactly the contents of the first `limit` entries of a
descending-rank-sorted permutation of the fused mapping. -/
theorem claim7_retrieve_sorted (search : String → Nat → List Chunk)
    (query queryType : String) (limit : Nat) :
    (searchRelevantChunks search query queryType limit).length ≤ limit
    ∧ ∃ sorted : ResultsMap,
        sorted.Perm
          (fuseResults (search query limit) (strategyBResults search query queryType limit))
        ∧ sorted.Sorted rankDescending
        ∧ searchRelevantChunks search query queryType limit
            = (sorted.take limit).map (fun e => e.2.1) := by
  constructor
  · unfold searchRelevantChunks sortByRankTake
    rw [List.length_map]
    exact List.length_take_le _ _
  · exact ⟨List.insertionSort rankDescending _,
      List.perm_insertionSort _ _, List.sorted_insertionSort _ _, rfl⟩


/-! ### C8 — the no-sources notice and source labels -/

/-- The no-sources notice sentence emitted when retrieval returns no
chunks. -/
def noticeText : String := "No directly relevant medical sources were found"

/-- The label text whose absence the claim asserts for empty retrievals. -/
def sourceOneText : String := "Source 1"

theorem countOcc_wrap3 (pat : List Char) (pre mid suf : String)
    (hl : leftSafe pat pre.data) (hr : rightSafe pat suf.data) :
    countOcc pat (pre ++ mid ++ suf).data
      = countOcc pat pre.data + countOcc pat mid.data + countOcc pat suf.data := by
  rw [String.data_append, String.data_append]
  simp only [List.append_assoc]
  rw [countOcc_append_of_leftSafe pat _ _ hl]
  rw [countOcc_append_of_rightSafe pat _ _ hr]
  omega

theorem lookup_mem_values {α β : Type} [BEq α] (l : List (α × β)) (a : α) (b : β)
    (h : l.lookup a = some b) : b ∈ l.map Prod.snd := by
  induction l with
  | nil => simp [List.lookup] at h
  | cons x l ih =>
    obtain ⟨k, v⟩ := x
    simp only [List.lookup] at h
    cases hk : (a == k) with
    | true =>
      rw [hk] at h
      simp only [Option.some.injEq] at h
      subst h
      simp
    | false =>
      rw [hk] at h
      exact List.mem_cons_of_mem _ (ih h)

theorem countOcc_focusOf (pat : List Char) (qt : String)
    (hvals : ∀ v ∈ queryFocusTable.map Prod.snd, countOcc pat v.data = 0)
    (hgen : countOcc pat generalFocus.data = 0) :
    countOcc pat (focusOf qt).data = 0 := by
  unfold focusOf
  cases hlk : queryFocusTable.lookup qt with
  | none => simpa using hgen
  | some v => simpa using hvals v (lookup_mem_values _ _ _ hlk)

theorem countOcc_guidelines (pat : List Char) (qt : String)
    (hl : leftSafe pat guidelinesPre.data) (hr : rightSafe pat guidelinesSuf.data)
    (c1 : countOcc pat guidelinesPre.data = 0) (c2 : countOcc pat guidelinesSuf.data = 0)
    (hvals : ∀ v ∈ queryFocusTable.map Prod.snd, countOcc pat v.data = 0)
    (hgen : countOcc pat generalFocus.data = 0) :
    countOcc pat (guidelinesPart qt).data = 0 := by
  unfold guidelinesPart
  rw [countOcc_wrap3 pat _ _ _ hl hr, c1, c2, countOcc_focusOf pat qt hvals hgen]

theorem patientSum_zero (pat : List Char) (pc : Option PatientContext)
    (hl : leftSafe pat patientPartPre.data) (hr : rightSafe pat patientPartSuf.data)
    (c1 : countOcc pat patientPartPre.data = 0) (c2 : countOcc pat patientPartSuf.data = 0)
    (hp : ∀ p, pc = some p → countOcc pat (formatPatientContext p).data = 0) :
    ((patientBlockList pc).map (fun part => countOcc pat part.data)).sum = 0 := by
  cases pc with
  | none => rfl
  | some p =>
    have hfc := hp p rfl
    show ((if 0 < keysCount p then
        (if formatPatientContext p == "" then []
         else [patientPart (formatPatientContext p)]) else []).map
        (fun part => countOcc pat part.data)).sum = 0
    by_cases hk : 0 < keysCount p
    · rw [if_pos hk]
      by_cases hz : (formatPatientContext p == "") = true
      · rw [if_pos hz]
        rfl
      · rw [if_neg hz]
        simp only [List.map_cons, List.map_nil, List.sum_cons, List.sum_nil]
        unfold patientPart
        rw [countOcc_wrap3 pat _ _ _ hl hr, c1, c2, hfc]
        rfl
    · rw [if_neg hk]
      rfl

theorem historySum_zero (pat : List Char) (hist : String)
    (hl : leftSafe pat historyPartPre.data) (hr : rightSafe pat historyPartSuf.data)
    (c1 : countOcc pat historyPartPre.data = 0) (c2 : countOcc pat historyPartSuf.data = 0)
    (hh : countOcc pat hist.data = 0) :
    ((historyBlockList hist).map (fun part => countOcc pat part.data)).sum = 0 := by
  unfold historyBlockList
  by_cases h1 : (hist == "") = true
  · rw [if_pos h1]
    rfl
  · rw [if_neg h1]
    by_cases h2 : (jsTrim hist == "") = true
    · rw [if_pos h2]
      rfl
    · rw [if_neg h2]
      simp only [List.map_cons, List.map_nil, List.sum_cons, List.sum_nil]
      unfold historyPart
      rw [countOcc_wrap3 pat _ _ _ hl hr, c1, c2, hh]
      rfl

theorem countOcc_questionPart (pat : List Char) (q qt : String)
    (h1 : leftSafe pat questionPartPre.data)
    (h2 : ∀ k, k < pat.length → 0 < k →
        ¬ (pat.drop k <+: questionPartMid.data) ∧ ¬ (questionPartMid.data <+: pat.drop k))
    (h3 : leftSafe pat questionPartMid.data)
    (c1 : countOcc pat questionPartPre.data = 0)
    (c2 : countOcc pat questionPartMid.data = 0)
    (hq : countOcc pat q.data = 0)
    (hup : countOcc pat (jsToUpper qt).data = 0) :
    countOcc pat (questionPart q qt).data = 0 := by
  unfold questionPart
  rw [String.data_append, String.data_append, String.data_append]
  simp only [List.append_assoc]
  rw [countOcc_append_of_leftSafe pat _ _ h1]
  rw [countOcc_append_of_rightSafe pat _ _
    (rightSafe_append_of_border pat questionPartMid.data h2 (jsToUpper qt).data)]
  rw [countOcc_append_of_leftSafe pat _ _ h3]
  omega

theorem countOcc_toString_notice (n : Nat) :
    countOcc noticeText.data (toString n).data = 0 := by
  apply countOcc_eq_zero_of_missing _ _ 'N' (by decide)
  intro hmem
  exact absurd (toString_nat_all_digits n 'N' hmem) (by decide)

theorem countOcc_labelString_notice (n : Nat) :
    countOcc noticeText.data (sourceLabel n).data = 0 := by
  unfold sourceLabel
  rw [String.data_append, String.data_append]
  simp only [List.append_assoc]
  rw [countOcc_append_of_leftSafe _ _ _
    (by decide : leftSafe noticeText.data ("--- Source " : String).data)]
  rw [countOcc_append_of_rightSafe _ _ _
    (by decide : rightSafe noticeText.data (" ---" : String).data)]
  rw [countOcc_toString_notice]
  decide

theorem countOcc_chunkPiece_notice (n : Nat) (ch : String)
    (htrim : countOcc noticeText.data (jsTrim ch).data = 0) :
    countOcc noticeText.data (chunkPiece n ch).data = 0 := by
  unfold chunkPiece
  rw [String.data_append, String.data_append, String.data_append, String.data_append]
  simp only [List.append_assoc]
  rw [countOcc_append_of_leftSafe _ _ _
    (by decide : leftSafe noticeText.data ("\n" : String).data)]
  rw [countOcc_append_of_rightSafe _ (sourceLabel n).data
    (['\n'] ++ ((jsTrim ch).data ++ ['\n']))
    (rightSafe_of_head _ (['\n'] ++ ((jsTrim ch).data ++ ['\n'])) '\n' rfl (by decide))]
  rw [countOcc_append_of_leftSafe _ _ _
    (by decide : leftSafe noticeText.data ['\n'])]
  rw [countOcc_append_of_rightSafe _ (jsTrim ch).data _
    (by decide : rightSafe noticeText.data ['\n'])]
  rw [countOcc_labelString_notice, htrim]
  decide

theorem countOcc_numberChunks_notice (chunks : List String) :
    ∀ i, (∀ ch ∈ chunks, countOcc noticeText.data (jsTrim ch).data = 0) →
      ((numberChunks i chunks).map (fun p => countOcc noticeText.data p.data)).sum = 0 := by
  induction chunks with
  | nil =>
    intro i _
    rfl
  | cons c rest ih =>
    intro i h
    simp only [numberChunks, List.map_cons, List.sum_cons]
    rw [countOcc_chunkPiece_notice _ _ (h c (List.mem_cons_self c rest)),
      ih (i + 1) (fun ch hch => h ch (List.mem_cons_of_mem c hch))]

theorem countOcc_chunkSources_notice (chunks : List String)
    (h : ∀ ch ∈ chunks, countOcc noticeText.data (jsTrim ch).data = 0) :
    countOcc noticeText.data (chunkSourcesPart chunks).data = 0 := by
  unfold chunkSourcesPart
  rw [countOcc_wrap3 _ _ _ _ (by decide) (by decide)]
  rw [countOcc_joinWith _ (by decide) (by decide),
    countOcc_numberChunks_notice chunks 0 h]
  decide

theorem countOcc_assemblePrompt (pat : List Char) (hpat : pat ≠ []) (hnl : '\n' ∉ pat)
    (q : String) (chunks : List String) (pc : Option PatientContext) (hist qt : String) :
    countOcc pat (assemblePrompt q chunks pc hist qt).data
      = countOcc pat contextHeader.data
        + ((patientBlockList pc).map (fun part => countOcc pat part.data)).sum
        + countOcc pat (if 0 < chunks.length then chunkSourcesPart chunks else noSourcesPart).data
        + ((historyBlockList hist).map (fun part => countOcc pat part.data)).sum
        + countOcc pat (questionPart q qt).data
        + countOcc pat (guidelinesPart qt).data := by
  unfold assemblePrompt assembleParts
  rw [countOcc_joinWith pat hpat hnl]
  simp only [List.map_append, List.sum_append, List.map_cons, List.map_nil,
    List.sum_cons, List.sum_nil]
  omega

theorem infix_joinWith (parts : List String) (p : String) (hp : p ∈ parts) :
    p.data <:+: (joinWith "\n" parts).data := by
  induction parts with
  | nil => simp at hp
  | cons q rest ih =>
    cases rest with
    | nil =>
      rcases List.mem_cons.mp hp with rfl | hmem
      · exact List.infix_rfl
      · simp at hmem
    | cons r rest' =>
      have hdata : (joinWith "\n" (q :: r :: rest')).data
          = q.data ++ ('\n' :: (joinWith "\n" (r :: rest')).data) := by
        show (q ++ "\n" ++ joinWith "\n" (r :: rest')).data = _
        rw [String.data_append, String.data_append, List.append_assoc]
        rfl
      rcases List.mem_cons.mp hp with rfl | hmem
      · rw [hdata]
        exact (List.prefix_append _ _).isInfix
      · rw [hdata]
        refine List.IsInfix.trans (ih hmem) ?_
        exact ((List.suffix_cons '\n' _).trans (List.suffix_append _ _)).isInfix

theorem numberChunks_mem : ∀ (chunks : List String) (j i : Nat), i < chunks.length →
    ∃ ch, chunkPiece (j + i + 1) ch ∈ numberChunks j chunks := by
  intro chunks
  induction chunks with
  | nil =>
    intro j i h
    simp at h
  | cons c rest ih =>
    intro j i h
    cases i with
    | zero =>
      refine ⟨c, ?_⟩
      show chunkPiece (j + 0 + 1) c ∈ chunkPiece (j + 1) c :: numberChunks (j + 1) rest
      exact List.mem_cons_self _ _
    | succ i' =>
      obtain ⟨ch, hch⟩ := ih (j + 1) i' (by simp only [List.length_cons] at h; omega)
      refine ⟨ch, ?_⟩
      have he : j + (i' + 1) + 1 = j + 1 + i' + 1 := by omega
      rw [he]
      exact List.mem_cons_of_mem _ hch

theorem label_infix_chunkPiece (n : Nat) (ch : String) :
    (sourceLabel n).data <:+: (chunkPiece n ch).data := by
  refine ⟨("\n" : String).data, (("\n" ++ jsTrim ch ++ "\n" : String)).data, ?_⟩
  unfold chunkPiece
  simp only [String.data_append, List.append_assoc]

set_option maxRecDepth 400000 in
/-- C8 counterexample: the claim quantifies over every question, but the
question text is embedded verbatim in the prompt — taking the question to
be the notice sentence itself makes the assembled prompt (with an empty
chunk list) contain the no-sources notice twice, not exactly once. -/
theorem claim8_counterexample :
    countOcc noticeText.data
      (assemblePrompt noticeText [] none "" "general").data = 2 := by
  decide

set_option maxRecDepth 400000 in
/-- C8 amended: provided the question, the history, the uppercased query
type, the rendered patient-context block and the trimmed chunks do not
themselves contain the notice text (resp. the text `Source 1`), assembling
with an empty chunk list yields a prompt containing the no-sources notice
exactly once and the text `Source 1` not at all, and assembling with a
non-empty chunk list yields a prompt without the notice in which every
chunk's numbered `--- Source i ---` label occurs. -/
theorem claim8_amended
    (question history queryType : String) (pc : Option PatientContext)
    (chunks : List String)
    (hq1 : countOcc noticeText.data question.data = 0)
    (hh1 : countOcc noticeText.data history.data = 0)
    (ht1 : countOcc noticeText.data (jsToUpper queryType).data = 0)
    (hp1 : ∀ p, pc = some p → countOcc noticeText.data (formatPatientContext p).data = 0)
    (hq2 : countOcc sourceOneText.data question.data = 0)
    (hh2 : countOcc sourceOneText.data history.data = 0)
    (ht2 : countOcc sourceOneText.data (jsToUpper queryType).data = 0)
    (hp2 : ∀ p, pc = some p → countOcc sourceOneText.data (formatPatientContext p).data = 0)
    (hc1 : ∀ ch ∈ chunks, countOcc noticeText.data (jsTrim ch).data = 0) :
    (chunks = [] →
        countOcc noticeText.data
            (assemblePrompt question chunks pc history queryType).data = 1
        ∧ countOcc sourceOneText.data
            (assemblePrompt question chunks pc history queryType).data = 0)
    ∧ (chunks ≠ [] →
        countOcc noticeText.data
            (assemblePrompt question chunks pc history queryType).data = 0)
    ∧ (∀ i, i < chunks.length →
        (sourceLabel (i + 1)).data
          <:+: (assemblePrompt question chunks pc history queryType).data) := by
  refine ⟨?_, ?_, ?_⟩
  · intro hempty
    subst hempty
    constructor
    · rw [countOcc_assemblePrompt _ (by decide) (by decide)]
      rw [patientSum_zero _ pc (by decide) (by decide) (by decide) (by decide) hp1]
      rw [historySum_zero _ history (by decide) (by decide) (by decide) (by decide) hh1]
      rw [countOcc_questionPart _ question queryType (by decide) (by decide) (by decide)
        (by decide) (by decide) hq1 ht1]
      rw [countOcc_guidelines _ queryType (by decide) (by decide) (by decide) (by decide)
        (by decide) (by decide)]
      decide
    · rw [countOcc_assemblePrompt _ (by decide) (by decide)]
      rw [patientSum_zero _ pc (by decide) (by decide) (by decide) (by decide) hp2]
      rw [historySum_zero _ history (by decide) (by decide) (by decide) (by decide) hh2]
      rw [countOcc_questionPart _ question queryType (by decide) (by decide) (by decide)
        (by decide) (by decide) hq2 ht2]
      rw [countOcc_guidelines _ queryType (by decide) (by decide) (by decide) (by decide)
        (by decide) (by decide)]
      decide
  · intro hne
    have hlen : 0 < chunks.length := List.length_pos.mpr hne
    rw [countOcc_assemblePrompt _ (by decide) (by decide)]
    rw [patientSum_zero _ pc (by decide) (by decide) (by decide) (by decide) hp1]
    rw [historySum_zero _ history (by decide) (by decide) (by decide) (by decide) hh1]
    rw [countOcc_questionPart _ question queryType (by decide) (by decide) (by decide)
      (by decide) (by decide) hq1 ht1]
    rw [countOcc_guidelines _ queryType (by decide) (by decide) (by decide) (by decide)
      (by decide) (by decide)]
    rw [if_pos hlen, countOcc_chunkSources_notice chunks hc1]
    decide
  · intro i hi
    have hlen : 0 < chunks.length := by omega
    obtain ⟨ch, hch⟩ := numberChunks_mem chunks 0 i hi
    have h1 : (sourceLabel (0 + i + 1)).data <:+: (chunkPiece (0 + i + 1) ch).data :=
      label_infix_chunkPiece _ ch
    rw [Nat.zero_add] at h1
    have h2 : (chunkPiece (0 + i + 1) ch).data
        <:+: (joinWith "\n" (numberChunks 0 chunks)).data :=
      infix_joinWith _ _ hch
    rw [Nat.zero_add] at h2
    have h3 : (joinWith "\n" (numberChunks 0 chunks)).data
        <:+: (chunkSourcesPart chunks).data := by
      refine ⟨chunkSourcesPre.data, chunkSourcesSuf.data, ?_⟩
      unfold chunkSourcesPart
      rw [String.data_append, String.data_append]
    have h4 : (chunkSourcesPart chunks).data
        <:+: (assemblePrompt question chunks pc history queryType).data := by
      apply infix_joinWith
      unfold assembleParts
      rw [if_pos hlen]
      simp
    exact h1.trans (h2.trans (h3.trans h4))

set_option maxRecDepth 400000 in
/-- C8 amended witness: the amended law applied at a concrete request with
no retrieved chunks — the prompt contains the notice exactly once. -/
theorem claim8_amended_witness :
    countOcc noticeText.data
      (assemblePrompt "What is FOLFOX?" [] none "" "treatment").data = 1 :=
  ((claim8_amended "What is FOLFOX?" "" "treatment" none []
      (by decide) (by decide) (by decide) (fun p hp => absurd hp (by simp))
      (by decide) (by decide) (by decide) (fun p hp => absurd hp (by simp))
      (by simp)).1 rfl).1


end Wondrlink
